import Mathlib

/-!
Verification of the pipeline-orchestration kernel of the mas-data repository.

The development shallowly embeds the three kernel components:

* `src/subsets_utils/tracking.py` — the Execution Context & Provenance
  Tracker.  The module-level mutable globals (`_current_task_id`,
  `_asset_writers`, `_io_records`) become the fields of `TrackerState`;
  every Python function becomes a Lean function of type
  `args → TrackerState → result × TrackerState`, so that mutation is
  explicit state passing.  Python dicts (string keys, insertion ordered)
  become association lists with an update that replaces in place, matching
  CPython dict assignment semantics.  The runtime call stack inspected by
  `_get_caller_stack` is passed in as an explicit list of frames.

* `src/subsets_utils/nodes.py` — the Task Registry Loader (`load_nodes`).
  The filesystem and the Python import machinery are modelled by giving
  `load_nodes` the directory-exists flag and the (already sorted) list of
  discovered files, each carrying the outcome of loading it; `print`
  output is accumulated in an explicit log.

* The Dependency Graph & Executor lives in `src/subsets_utils/dag.py`,
  which is not part of the sources at hand; its ordering algorithm is
  modelled from the specification (see `topoStep`).
-/

/-! ## Python-dict model (string-keyed, insertion ordered) -/

/-- CPython dict assignment `d[k] = v` on an insertion-ordered dict:
replaces the value in place when the key is present, appends otherwise. -/
def pyDictSet {α : Type} (d : List (String × α)) (k : String) (v : α) :
    List (String × α) :=
  if d.any (fun q => decide (q.1 = k)) then
    d.map (fun q => if q.1 = k then (k, v) else q)
  else d ++ [(k, v)]

/-- CPython `d.get(k)` — the value at the first (only) entry for `k`. -/
def pyDictGet {α : Type} (d : List (String × α)) (k : String) : Option α :=
  (d.find? (fun q => decide (q.1 = k))).map Prod.snd

/-! ## Call-stack model (`_get_caller_stack`) -/

/-- One entry of `traceback.extract_stack()`: file name, function name,
line number. -/
structure Frame where
  filename : String
  name : String
  lineno : Nat
deriving DecidableEq

/-- `as` occurs as a leading segment of `bs` (character-list version of a
Python `startswith`). -/
def charListLeadsWith : List Char → List Char → Bool
  | [], _ => true
  | _ :: _, [] => false
  | a :: as, b :: bs => a == b && charListLeadsWith as bs

/-- `needle` occurs as a contiguous segment of `hay`. -/
def charListHasSegment (needle : List Char) : List Char → Bool
  | [] => needle.isEmpty
  | c :: rest => charListLeadsWith needle (c :: rest) || charListHasSegment needle rest

/-- Python `needle in hay` on strings (substring containment). -/
def strContainsSegment (hay needle : String) : Bool :=
  charListHasSegment needle.toList hay.toList

/-- Python `s.startswith(p)`. -/
def pyStartsWith (s p : String) : Bool :=
  charListLeadsWith p.toList s.toList

/-- The frame-skipping test of `_get_caller_stack`: the file name contains
`subsets_utils` and the function name is one of `record_read`,
`record_write`, `_get_caller_stack`. -/
def isInternalFrame (f : Frame) : Bool :=
  strContainsSegment f.filename "subsets_utils" &&
    (f.name == "record_read" || f.name == "record_write" ||
      f.name == "_get_caller_stack")

/-- The rendered frame label: the function name followed, in parentheses,
by the base name of the file (the part after the last slash), a colon and
the line number. -/
def frameLabel (f : Frame) : String :=
  f.name ++ " (" ++ (f.filename.splitOn "/").getLastD "" ++ ":" ++
    toString f.lineno ++ ")"

/-- Python negative-slice `l[:-k]` (empty when `k = 0` would not occur here,
but the slice is modelled faithfully anyway). -/
def pySliceDropLast {α : Type} (l : List α) (k : Nat) : List α :=
  if k = 0 then [] else l.take (l.length - k)

/-- Embedding of `_get_caller_stack`: drop the last `skip_frames` frames,
drop frames internal to the tracking subsystem, render the rest as labels,
and keep only the last 5 (`result[-5:]`), oldest first. -/
def _get_caller_stack (frames : List Frame) (skip_frames : Nat := 3) :
    List String :=
  let kept := pySliceDropLast frames skip_frames
  let result := (kept.filter (fun f => !(isInternalFrame f))).map frameLabel
  result.drop (result.length - 5)

/-! ## Tracker state and operations (`tracking.py`) -/

/-- Embedding of the `IORecord` dataclass. -/
structure IORecord where
  asset_path : String
  task_id : Option String
  operation : String
  stack : List String
deriving DecidableEq

/-- The module-level mutable state of `tracking.py`:
`_current_task_id`, `_asset_writers`, `_io_records`. -/
structure TrackerState where
  currentTask : Option String
  assetWriters : List (String × String)
  ioRecords : List IORecord
deriving DecidableEq

/-- The state at interpreter start: no current task, empty dict, empty log. -/
def TrackerState.init : TrackerState := ⟨none, [], []⟩

/-- Embedding of `set_current_task`. -/
def set_current_task (task_id : Option String) (s : TrackerState) :
    Unit × TrackerState :=
  ((), { s with currentTask := task_id })

/-- Embedding of `get_current_task`. -/
def get_current_task (s : TrackerState) : Option String × TrackerState :=
  (s.currentTask, s)

/-- Embedding of `record_write`.  `if task_id:` is Python truthiness on
`str | None`: the writer index is updated only when the current task id is
a non-empty string.  The ambient call stack is passed in as `frames`. -/
def record_write (asset_path : String) (frames : List Frame)
    (s : TrackerState) : Unit × TrackerState :=
  let task_id := s.currentTask
  let writers :=
    match task_id with
    | some t => if t = "" then s.assetWriters else pyDictSet s.assetWriters asset_path t
    | none => s.assetWriters
  ((), { s with
          assetWriters := writers,
          ioRecords := s.ioRecords ++
            [⟨asset_path, task_id, "write", _get_caller_stack frames 3⟩] })

/-- Embedding of `record_read`: appends a record, never touches the index. -/
def record_read (asset_path : String) (frames : List Frame)
    (s : TrackerState) : Unit × TrackerState :=
  let task_id := s.currentTask
  ((), { s with
          ioRecords := s.ioRecords ++
            [⟨asset_path, task_id, "read", _get_caller_stack frames 3⟩] })

/-- Embedding of `get_writer`. -/
def get_writer (asset_path : String) (s : TrackerState) :
    Option String × TrackerState :=
  (pyDictGet s.assetWriters asset_path, s)

/-- Embedding of `get_assets_by_writer`. -/
def get_assets_by_writer (task_id : String) (s : TrackerState) :
    List String × TrackerState :=
  ((s.assetWriters.filter (fun q => decide (q.2 = task_id))).map Prod.fst, s)

/-- Embedding of `get_reads_by_task`. -/
def get_reads_by_task (task_id : String) (s : TrackerState) :
    List String × TrackerState :=
  ((s.ioRecords.filter
      (fun r => decide (r.task_id = some task_id) && decide (r.operation = "read"))).map
    (fun r => r.asset_path), s)

/-- Embedding of `get_writes_by_task`. -/
def get_writes_by_task (task_id : String) (s : TrackerState) :
    List String × TrackerState :=
  ((s.ioRecords.filter
      (fun r => decide (r.task_id = some task_id) && decide (r.operation = "write"))).map
    (fun r => r.asset_path), s)

/-- The dict built for each record by `get_io_records`. -/
structure RecordView where
  asset : String
  task : Option String
  op : String
  stack : List String
deriving DecidableEq

/-- Projection of an `IORecord` to its `get_io_records` dict. -/
def IORecord.view (r : IORecord) : RecordView :=
  ⟨r.asset_path, r.task_id, r.operation, r.stack⟩

/-- Embedding of `get_io_records` (argument `none` is Python `task_id=None`,
meaning no filter). -/
def get_io_records (task_id : Option String) (s : TrackerState) :
    List RecordView × TrackerState :=
  let records :=
    match task_id with
    | none => s.ioRecords
    | some t => s.ioRecords.filter (fun r => decide (r.task_id = some t))
  (records.map IORecord.view, s)

/-- Embedding of `clear_tracking`: clears the index and the log, leaves the
current-task context variable alone. -/
def clear_tracking (s : TrackerState) : Unit × TrackerState :=
  ((), { s with assetWriters := [], ioRecords := [] })

/-! ## Operation sequences over the tracker -/

/-- One call into the tracking module.  Read/write calls carry the ambient
call stack active at the call site. -/
inductive TrackOp where
  | setTask (task_id : Option String)
  | write (asset : String) (frames : List Frame)
  | read (asset : String) (frames : List Frame)

/-- Apply one call to the tracker state. -/
def applyOp (s : TrackerState) : TrackOp → TrackerState
  | .setTask t => (set_current_task t s).2
  | .write a fr => (record_write a fr s).2
  | .read a fr => (record_read a fr s).2

/-- Run a sequence of calls from a given state. -/
def runFrom (s : TrackerState) (ops : List TrackOp) : TrackerState :=
  ops.foldl applyOp s

/-- Run a sequence of calls from interpreter start. -/
def runOps (ops : List TrackOp) : TrackerState :=
  runFrom TrackerState.init ops

/-- The (asset, operation) summary of the read/write calls in a sequence,
in call order. -/
def ioCalls : List TrackOp → List (String × String)
  | [] => []
  | .setTask _ :: rest => ioCalls rest
  | .write a _ :: rest => (a, "write") :: ioCalls rest
  | .read a _ :: rest => (a, "read") :: ioCalls rest

/-! ## Task Registry Loader (`nodes.py`) -/

/-- Task identities are callables; the registry maps each to its
dependency list, in insertion order, exactly as the Python dict
`all_nodes` does. -/
abbrev Registry := List (String × List String)

/-- A Python value sitting in a `NODES` dict entry: either a callable
(hashable, usable as a dict key) or a list (unhashable). -/
inductive PyVal where
  | callable (name : String)
  | pylist (elems : List String)

/-- A Python exception as observed by the loader. -/
inductive PyExc where
  | typeError
  | exc (msg : String)
deriving DecidableEq

/-- A `NODES` dict: entries in insertion order. -/
abbrev NodesDict := List (String × PyVal)

/-- Outcome of dynamically loading one node file:
the module executed and exposed `NODES` as a dict (`loaded (some _)`),
executed without a usable `NODES` attribute (`loaded none`),
`spec_from_file_location` returned no loader (`specNone`), or an
exception was raised during load or module-level execution (`raised`). -/
inductive LoadResult where
  | loaded (nodes : Option NodesDict)
  | specNone
  | raised (e : PyExc)

/-- One `.py` file found by the directory glob. -/
structure NodeFile where
  name : String
  load : LoadResult

/-- The `print` line `Loading nodes from: {nodes_dir}`. -/
def loadingMsg (dir : String) : String :=
  "Loading nodes from: " ++ dir

/-- The `print` line `Warning: nodes directory not found: {nodes_dir}`. -/
def dirMissingMsg (dir : String) : String :=
  "Warning: nodes directory not found: " ++ dir

/-- The `print` line `Warning: Could not load spec for {node_file}`. -/
def specWarnMsg (name : String) : String :=
  "Warning: Could not load spec for " ++ name

/-- Rendering of the exception in the error print. -/
def excMsg : PyExc → String
  | .typeError => "TypeError: unhashable type: list"
  | .exc m => m

/-- The `print` line `Error loading {node_file.name}: {e}`. -/
def errLoadMsg (name : String) (e : PyExc) : String :=
  "Error loading " ++ name ++ ": " ++ excMsg e

/-- The `print` line `Loaded {len(all_nodes) // 2} nodes`. -/
def loadedMsg (n : Nat) : String :=
  "Loaded " ++ toString n ++ " nodes"

/-- The conversion loop
`for download_fn, transform_fn in nodes_dict.items():` with body
`all_nodes[download_fn] = []; all_nodes[transform_fn] = [download_fn]`.
Using a list value as a dict key raises `TypeError`. -/
def convertNodes (reg : Registry) : NodesDict → Except PyExc Registry
  | [] => .ok reg
  | (download_fn, transform_val) :: rest =>
    let reg1 := pyDictSet reg download_fn []
    match transform_val with
    | .callable transform_fn => convertNodes (pyDictSet reg1 transform_fn [download_fn]) rest
    | .pylist _ => .error .typeError

/-- The `for node_file in node_files:` loop of `load_nodes`: skip files
whose name starts with an underscore, warn and continue on a missing
loader spec, accumulate `NODES` entries, and on any exception print the
error line with the file name and re-raise (`Except.error`). -/
def processFiles (log : List String) (reg : Registry) :
    List NodeFile → List String × Except PyExc Registry
  | [] => (log, .ok reg)
  | f :: rest =>
    if pyStartsWith f.name "_" then processFiles log reg rest
    else
      match f.load with
      | .specNone => processFiles (log ++ [specWarnMsg f.name]) reg rest
      | .raised e => (log ++ [errLoadMsg f.name e], .error e)
      | .loaded none => processFiles log reg rest
      | .loaded (some nd) =>
        match convertNodes reg nd with
        | .ok reg2 => processFiles log reg2 rest
        | .error e => (log ++ [errLoadMsg f.name e], .error e)

/-- Embedding of `load_nodes`.  The filesystem is abstracted by
`dirExists` (whether `nodes_dir.exists()`) and `files`, the sorted glob of
`.py` files each paired with the outcome of loading it.  The result is
the accumulated `print` log together with either the registry handed to
`DAG(...)` or the propagated exception. -/
def load_nodes (dir : String) (dirExists : Bool) (files : List NodeFile) :
    List String × Except PyExc Registry :=
  let log0 := [loadingMsg dir]
  if dirExists then
    match processFiles log0 [] files with
    | (log, .ok reg) => (log ++ [loadedMsg (reg.length / 2)], .ok reg)
    | (log, .error e) => (log, .error e)
  else
    (log0 ++ [dirMissingMsg dir], .ok [])

/-- A node file declaring exactly one producer→transform pair:
`NODES = {producer: transform}`. -/
def mkPairUnit (name : String) (pr : String × String) : NodeFile :=
  ⟨name, .loaded (some [(pr.1, .callable pr.2)])⟩

/-- The registry rows contributed by a list of producer→transform pairs:
`producer → []` and `transform → [producer]` for each pair, in order. -/
def pairRows (pairs : List (String × String)) : Registry :=
  pairs.flatMap (fun pr => [(pr.1, []), (pr.2, [pr.1])])

/-- The task identities declared by a list of pairs, in declaration
order. -/
def pairsFlat (pairs : List (String × String)) : List String :=
  pairs.flatMap (fun pr => [pr.1, pr.2])

/-! ## Dependency Graph & Executor (modelled from the spec) -/

/-- A registry entry is ready when all of its dependencies have already
been placed into the order. -/
def readyTask (acc : List String) (p : String × List String) : Bool :=
  p.2.all (fun d => acc.contains d)

/-- Modelled from the spec: the ordering algorithm of the Dependency
Graph & Executor (`src/subsets_utils/dag.py`, whose source is not among
the files at hand).  Per spec §4.2 it must compute an order in which
every task appears after all of its dependencies, deterministically in
first-seen order, and fail with a structural error on a cycle or a
dangling dependency.  Modelled as repeated first-seen selection of a
ready task; `fuel` bounds the iteration by the registry size. -/
def topoStep : Nat → Registry → List String → Except String (List String)
  | 0, reg, acc =>
    if reg.isEmpty then .ok acc
    else .error ("cycle or unknown dependency involving task " ++
      ((reg.map Prod.fst).headD ""))
  | fuel + 1, reg, acc =>
    if reg.isEmpty then .ok acc
    else
      match reg.find? (readyTask acc) with
      | none => .error ("cycle or unknown dependency involving task " ++
          ((reg.map Prod.fst).headD ""))
      | some p => topoStep fuel (reg.filter (fun q => !(q.1 == p.1))) (acc ++ [p.1])

/-- Modelled from the spec: the execution order computed by the
Dependency Graph & Executor from a registry. -/
def topo_sort (reg : Registry) : Except String (List String) :=
  topoStep reg.length reg []

/-! ## Dictionary lemmas -/

theorem find?_map_set {α : Type} (d : List (String × α)) (k : String) (v : α)
    (h : d.any (fun q => decide (q.1 = k)) = true) :
    (d.map (fun q => if q.1 = k then (k, v) else q)).find?
      (fun q => decide (q.1 = k)) = some (k, v) := by
  induction d with
  | nil => simp at h
  | cons q rest ih =>
    by_cases hq : q.1 = k
    · simp [List.find?, hq]
    · simp only [List.any_cons, Bool.or_eq_true, decide_eq_true_eq] at h
      rcases h with h | h
      · exact absurd h hq
      · have hd : (decide (q.1 = k)) = false := decide_eq_false hq
        simp only [List.map_cons, if_neg hq, List.find?, hd]
        exact ih h

theorem find?_append_fresh {α : Type} (d : List (String × α)) (k : String) (v : α)
    (h : d.any (fun q => decide (q.1 = k)) = false) :
    (d ++ [(k, v)]).find? (fun q => decide (q.1 = k)) = some (k, v) := by
  induction d with
  | nil => simp [List.find?]
  | cons q rest ih =>
    simp only [List.any_cons, Bool.or_eq_false_iff, decide_eq_false_iff_not] at h
    have hd : (decide (q.1 = k)) = false := decide_eq_false h.1
    simp only [List.cons_append, List.find?, hd]
    exact ih h.2

theorem pyDictGet_set_self {α : Type} (d : List (String × α)) (k : String) (v : α) :
    pyDictGet (pyDictSet d k v) k = some v := by
  unfold pyDictGet pyDictSet
  by_cases h : d.any (fun q => decide (q.1 = k)) = true
  · rw [if_pos h, find?_map_set d k v h]
    rfl
  · rw [if_neg h, find?_append_fresh d k v (Bool.eq_false_iff.mpr h)]
    rfl

/-! ## Claim theorems: tracker -/

/-- C8: for every path that does not exist on the filesystem, `load_nodes`
emits a diagnostic and returns an empty registry (a DAG over zero tasks)
without raising. -/
theorem load_nodes_missing_dir (dir : String) (files : List NodeFile) :
    load_nodes dir false files = ([loadingMsg dir, dirMissingMsg dir], .ok []) :=
  rfl

/-- C9: every query operation — `get_writer`, `get_assets_by_writer`,
`get_reads_by_task`, `get_writes_by_task`, `get_io_records` — leaves the
Writer Index, the IO Record log and the current-task slot exactly as they
were before the call, for every state of the tracker and every argument. -/
theorem queries_leave_state_unchanged (s : TrackerState) (a t : String)
    (o : Option String) :
    (get_writer a s).2 = s ∧ (get_assets_by_writer t s).2 = s ∧
    (get_reads_by_task t s).2 = s ∧ (get_writes_by_task t s).2 = s ∧
    (get_io_records o s).2 = s :=
  ⟨rfl, rfl, rfl, rfl, rfl⟩

/-- C1 counterexample: with the current task set to the empty string — a
task identity for which Python `if task_id:` is falsy — `record_write`
does not update the Writer Index, so `get_writer` does not return the
current task, refuting the claim for every task identity. -/
theorem record_write_empty_task_counterexample :
    (get_writer "a" ((record_write "a" []
        ((set_current_task (some "") TrackerState.init).2)).2)).1 ≠ some "" := by
  decide

/-- C1 (amended): for every artifact `a` and every non-empty task identity
`T`, `record_write a` while the current task is `T` makes a subsequent
`get_writer a` return `T`; `record_write a` while no task is active — the
slot holding `none` or the falsy empty string — leaves `get_writer a`
unchanged; and in both cases a write IO Record for `a` is appended to the
log. -/
theorem record_write_writer_index_spec :
    (∀ (s : TrackerState) (a : String) (frames : List Frame) (T : String),
      s.currentTask = some T → T ≠ "" →
      (get_writer a ((record_write a frames s).2)).1 = some T) ∧
    (∀ (s : TrackerState) (a : String) (frames : List Frame),
      s.currentTask = none ∨ s.currentTask = some "" →
      (get_writer a ((record_write a frames s).2)).1 = (get_writer a s).1) ∧
    (∀ (s : TrackerState) (a : String) (frames : List Frame),
      ((record_write a frames s).2).ioRecords =
        s.ioRecords ++ [⟨a, s.currentTask, "write", _get_caller_stack frames 3⟩]) := by
  refine ⟨?_, ?_, ?_⟩
  · intro s a frames T hT hne
    simp only [record_write, get_writer, hT, if_neg hne]
    exact pyDictGet_set_self s.assetWriters a T
  · intro s a frames h
    rcases h with h | h <;> simp [record_write, get_writer, h]
  · intro s a frames
    rfl

/-- Witness for the amended C1 at concrete inputs. -/
theorem record_write_writer_index_spec_witness :
    (get_writer "a" ((record_write "a" []
        (⟨some "T", [], []⟩ : TrackerState)).2)).1 = some "T" ∧
    (get_writer "a" ((record_write "a" []
        (⟨none, [], []⟩ : TrackerState)).2)).1 =
      (get_writer "a" (⟨none, [], []⟩ : TrackerState)).1 :=
  ⟨record_write_writer_index_spec.1 ⟨some "T", [], []⟩ "a" [] "T" rfl (by decide),
   record_write_writer_index_spec.2.1 ⟨none, [], []⟩ "a" [] (Or.inl rfl)⟩

/-! ## Run lemmas for the tracker -/

theorem runFrom_records_assetOp (ops : List TrackOp) :
    ∀ s : TrackerState,
      ((runFrom s ops).ioRecords).map (fun r => (r.asset_path, r.operation)) =
        s.ioRecords.map (fun r => (r.asset_path, r.operation)) ++ ioCalls ops := by
  induction ops with
  | nil => intro s; simp [runFrom, ioCalls]
  | cons op rest ih =>
    intro s
    cases op with
    | setTask t =>
      have h := ih ((set_current_task t s).2)
      simpa [runFrom, applyOp, ioCalls, set_current_task] using h
    | write a fr =>
      have h := ih ((record_write a fr s).2)
      simp only [runFrom, List.foldl_cons, applyOp] at h ⊢
      rw [h]
      simp [record_write, ioCalls]
    | read a fr =>
      have h := ih ((record_read a fr s).2)
      simp only [runFrom, List.foldl_cons, applyOp] at h ⊢
      rw [h]
      simp [record_read, ioCalls]

theorem map_view_filter (l : List IORecord) (t : String) :
    (l.filter (fun r => decide (r.task_id = some t))).map IORecord.view =
      (l.map IORecord.view).filter (fun v => decide (v.task = some t)) := by
  induction l with
  | nil => rfl
  | cons r rest ih =>
    by_cases h : r.task_id = some t <;>
      simp [List.filter_cons, IORecord.view, h, ih]

/-- C7: for every sequence of tracker calls, `get_io_records` with no
filter returns exactly one record per read/write call, in the order the
calls were made, and for every task id `t`, `get_io_records t` returns
exactly the subsequence of those records whose task id equals `t`, in the
same relative order. -/
theorem get_io_records_order_and_filter (ops : List TrackOp) (t : String) :
    ((get_io_records none (runOps ops)).1.map (fun v => (v.asset, v.op)) =
        ioCalls ops) ∧
    (get_io_records (some t) (runOps ops)).1 =
      (get_io_records none (runOps ops)).1.filter
        (fun v => decide (v.task = some t)) := by
  constructor
  · show ((runOps ops).ioRecords.map IORecord.view).map (fun v => (v.asset, v.op)) =
      ioCalls ops
    rw [List.map_map]
    have h := runFrom_records_assetOp ops TrackerState.init
    simpa [TrackerState.init] using h
  · show ((runOps ops).ioRecords.filter (fun r => decide (r.task_id = some t))).map
        IORecord.view =
      ((runOps ops).ioRecords.map IORecord.view).filter
        (fun v => decide (v.task = some t))
    exact map_view_filter _ t

/-! ## Call-stack bound lemmas -/

theorem caller_stack_spec (frames : List Frame) (skip : Nat) :
    (_get_caller_stack frames skip).length ≤ 5 ∧
    List.Sublist (_get_caller_stack frames skip)
      (((pySliceDropLast frames skip).filter
          (fun f => !(isInternalFrame f))).map frameLabel) := by
  unfold _get_caller_stack
  constructor
  · simp only [List.length_drop]
    omega
  · exact List.drop_sublist _ _

theorem runFrom_stack_inv (P : IORecord → Prop)
    (hP : ∀ (a : String) (tid : Option String) (op : String) (frames : List Frame),
      P ⟨a, tid, op, _get_caller_stack frames 3⟩) :
    ∀ (ops : List TrackOp) (s : TrackerState),
      (∀ r ∈ s.ioRecords, P r) → ∀ r ∈ (runFrom s ops).ioRecords, P r := by
  intro ops
  induction ops with
  | nil => intro s hs; simpa [runFrom] using hs
  | cons op rest ih =>
    intro s hs
    cases op with
    | setTask t =>
      exact ih _ (by simpa [applyOp, set_current_task] using hs)
    | write a fr =>
      apply ih
      intro r hr
      simp only [applyOp, record_write, List.mem_append, List.mem_singleton] at hr
      rcases hr with hr | hr
      · exact hs r hr
      · subst hr; exact hP a s.currentTask "write" fr
    | read a fr =>
      apply ih
      intro r hr
      simp only [applyOp, record_read, List.mem_append, List.mem_singleton] at hr
      rcases hr with hr | hr
      · exact hs r hr
      · subst hr; exact hP a s.currentTask "read" fr

/-- C10: every IO Record appended by `record_read` or `record_write`
carries a call-stack snapshot of at most 5 frames, in the original
(oldest-first) frame order, with the tracking subsystem frames excluded —
for every record in the log after any sequence of tracker calls. -/
theorem io_record_stack_invariant (ops : List TrackOp) (r : IORecord)
    (hr : r ∈ (runOps ops).ioRecords) :
    ∃ frames : List Frame,
      r.stack = _get_caller_stack frames 3 ∧
      r.stack.length ≤ 5 ∧
      List.Sublist r.stack
        (((pySliceDropLast frames 3).filter
            (fun f => !(isInternalFrame f))).map frameLabel) := by
  refine runFrom_stack_inv
    (fun r => ∃ frames : List Frame,
      r.stack = _get_caller_stack frames 3 ∧
      r.stack.length ≤ 5 ∧
      List.Sublist r.stack
        (((pySliceDropLast frames 3).filter
            (fun f => !(isInternalFrame f))).map frameLabel))
    ?_ ops TrackerState.init (by intro r hr; cases hr) r hr
  intro a tid op frames
  exact ⟨frames, rfl, (caller_stack_spec frames 3).1, (caller_stack_spec frames 3).2⟩

/-- Witness for C10 at a concrete run: one write with an empty ambient
stack. -/
theorem io_record_stack_invariant_witness :
    ∃ frames : List Frame,
      (⟨"a", none, "write", []⟩ : IORecord).stack = _get_caller_stack frames 3 ∧
      (⟨"a", none, "write", []⟩ : IORecord).stack.length ≤ 5 ∧
      List.Sublist (⟨"a", none, "write", []⟩ : IORecord).stack
        (((pySliceDropLast frames 3).filter
            (fun f => !(isInternalFrame f))).map frameLabel) :=
  io_record_stack_invariant [.write "a" []] ⟨"a", none, "write", []⟩ (by decide)

/-! ## Loader lemmas -/

theorem processFiles_append (xs ys : List NodeFile) :
    ∀ (log : List String) (reg : Registry),
      processFiles log reg (xs ++ ys) =
        match processFiles log reg xs with
        | (log1, .ok reg1) => processFiles log1 reg1 ys
        | (log1, .error e) => (log1, .error e) := by
  induction xs with
  | nil => intro log reg; rfl
  | cons f rest ih =>
    intro log reg
    simp only [List.cons_append, processFiles]
    by_cases h : pyStartsWith f.name "_" = true
    · simp only [if_pos h]
      exact ih log reg
    · simp only [if_neg h]
      cases hl : f.load with
      | specNone => exact ih _ _
      | raised e => rfl
      | loaded nd =>
        cases nd with
        | none => exact ih _ _
        | some d =>
          dsimp only
          cases hc : convertNodes reg d with
          | ok reg2 => exact ih _ _
          | error e => rfl

/-- C3: a unit whose load or module-level initialization raises makes
`load_nodes` print the error line naming the unit and re-raise the same
exception, aborting the discovery pass; no registry — in particular not
the partial one accumulated from the units already processed — is
returned. -/
theorem load_nodes_unit_failure (dir : String) (pre : List NodeFile)
    (f : NodeFile) (post : List NodeFile) (e : PyExc)
    (log1 : List String) (reg1 : Registry)
    (hf : f.load = .raised e)
    (hn : pyStartsWith f.name "_" = false)
    (hpre : processFiles [loadingMsg dir] [] pre = (log1, .ok reg1)) :
    load_nodes dir true (pre ++ f :: post) =
      (log1 ++ [errLoadMsg f.name e], .error e) := by
  have hb : ¬(pyStartsWith f.name "_" = true) := by simp [hn]
  simp only [load_nodes, if_true, processFiles_append, hpre]
  simp only [processFiles, if_neg hb, hf]

/-- Witness for C3: a failing unit after one successfully processed
unit. -/
theorem load_nodes_unit_failure_witness :
    load_nodes "src/nodes" true
        [⟨"a.py", .loaded (some [("fetchA", .callable "saveA")])⟩,
         ⟨"bad.py", .raised (.exc "boom")⟩] =
      ([loadingMsg "src/nodes", errLoadMsg "bad.py" (.exc "boom")],
        .error (.exc "boom")) :=
  load_nodes_unit_failure "src/nodes"
    [⟨"a.py", .loaded (some [("fetchA", .callable "saveA")])⟩]
    ⟨"bad.py", .raised (.exc "boom")⟩ [] (.exc "boom")
    [loadingMsg "src/nodes"] [("fetchA", []), ("saveA", ["fetchA"])]
    rfl rfl rfl

/-- C5: `load_nodes` assumes every `NODES` value is a single hashable
transform; a unit whose `NODES` maps a producer to a list — the shape
`NODES = {run: []}` declared by both node modules of this repository —
raises `TypeError` (list used as a dict key) and the discovery pass
aborts, so a producer with no transform cannot be registered. -/
theorem load_nodes_list_value_aborts (dir : String) (pre : List NodeFile)
    (name p : String) (elems : List String) (rest : NodesDict)
    (post : List NodeFile) (log1 : List String) (reg1 : Registry)
    (hn : pyStartsWith name "_" = false)
    (hpre : processFiles [loadingMsg dir] [] pre = (log1, .ok reg1)) :
    load_nodes dir true
        (pre ++ ⟨name, .loaded (some ((p, .pylist elems) :: rest))⟩ :: post) =
      (log1 ++ [errLoadMsg name .typeError], .error .typeError) := by
  have hb : ¬(pyStartsWith name "_" = true) := by simp [hn]
  simp only [load_nodes, if_true, processFiles_append, hpre]
  simp only [processFiles, if_neg hb, convertNodes]

/-- Witness for C5: the node modules `exchange_rates.py` and
`msb_tables.py` both declare `NODES = {run: []}`; the first aborts the
pass. -/
theorem load_nodes_list_value_aborts_witness :
    load_nodes "src/nodes" true
        [⟨"exchange_rates.py", .loaded (some [("run", .pylist [])])⟩,
         ⟨"msb_tables.py", .loaded (some [("run", .pylist [])])⟩] =
      ([loadingMsg "src/nodes", errLoadMsg "exchange_rates.py" .typeError],
        .error .typeError) :=
  load_nodes_list_value_aborts "src/nodes" [] "exchange_rates.py" "run" [] []
    [⟨"msb_tables.py", .loaded (some [("run", .pylist [])])⟩]
    [loadingMsg "src/nodes"] [] rfl rfl

theorem pairRows_length (pairs : List (String × String)) :
    (pairRows pairs).length = 2 * pairs.length := by
  induction pairs with
  | nil => rfl
  | cons pr rest ih =>
    simp only [pairRows, List.flatMap_cons, List.length_append] at ih ⊢
    simp only [List.length_cons, List.length_nil]
    omega

theorem pyDictSet_fresh {α : Type} (d : List (String × α)) (k : String) (v : α)
    (h : ∀ q ∈ d, q.1 ≠ k) : pyDictSet d k v = d ++ [(k, v)] := by
  have hany : d.any (fun q => decide (q.1 = k)) = false := by
    rw [List.any_eq_false]
    intro q hq
    simp [h q hq]
  simp [pyDictSet, hany]

theorem processFiles_pair_cons (log : List String) (reg : Registry)
    (n : String) (pr : String × String) (rest : List NodeFile)
    (hn : pyStartsWith n "_" = false) :
    processFiles log reg (mkPairUnit n pr :: rest) =
      processFiles log (pyDictSet (pyDictSet reg pr.1 []) pr.2 [pr.1]) rest := by
  have hb : ¬(pyStartsWith n "_" = true) := by simp [hn]
  simp only [processFiles, mkPairUnit, if_neg hb]
  rfl

theorem processFiles_pair_units (pairs : List (String × String)) :
    ∀ (names : List String) (log : List String) (reg : Registry),
      names.length = pairs.length →
      (∀ n ∈ names, pyStartsWith n "_" = false) →
      (pairsFlat pairs).Nodup →
      (∀ k ∈ reg.map Prod.fst, k ∉ pairsFlat pairs) →
      processFiles log reg (List.zipWith mkPairUnit names pairs) =
        (log, .ok (reg ++ pairRows pairs)) := by
  induction pairs with
  | nil =>
    intro names log reg _ _ _ _
    simp [pairRows, processFiles]
  | cons pr rest ih =>
    intro names log reg hlen hund hnd hdisj
    cases names with
    | nil => simp at hlen
    | cons n ns =>
      have hflat : pairsFlat (pr :: rest) = pr.1 :: pr.2 :: pairsFlat rest := rfl
      rw [hflat] at hnd hdisj
      have h1 : pr.1 ∉ (pr.2 :: pairsFlat rest) := (List.nodup_cons.mp hnd).1
      have hnd2 : (pr.2 :: pairsFlat rest).Nodup := (List.nodup_cons.mp hnd).2
      have h2 : pr.2 ∉ pairsFlat rest := (List.nodup_cons.mp hnd2).1
      have hndr : (pairsFlat rest).Nodup := (List.nodup_cons.mp hnd2).2
      have h12 : pr.1 ≠ pr.2 := by
        intro h
        exact h1 (h ▸ List.mem_cons_self _ _)
      have hset1 : pyDictSet reg pr.1 [] = reg ++ [(pr.1, [])] := by
        apply pyDictSet_fresh
        intro q hq heq
        exact hdisj q.1 (List.mem_map_of_mem Prod.fst hq)
          (heq ▸ List.mem_cons_self _ _)
      have hset2 : pyDictSet (reg ++ [(pr.1, [])]) pr.2 [pr.1] =
          reg ++ [(pr.1, []), (pr.2, [pr.1])] := by
        have h := pyDictSet_fresh (reg ++ [(pr.1, [])]) pr.2 [pr.1] ?_
        · rw [h, List.append_assoc]
          rfl
        · intro q hq heq
          rcases List.mem_append.mp hq with hq | hq
          · exact hdisj q.1 (List.mem_map_of_mem Prod.fst hq)
              (heq ▸ List.mem_cons_of_mem _ (List.mem_cons_self _ _))
          · simp only [List.mem_singleton] at hq
            subst hq
            exact h12 heq
      rw [List.zipWith_cons_cons,
        processFiles_pair_cons log reg n pr _ (hund n (List.mem_cons_self _ _)),
        hset1, hset2,
        ih ns log (reg ++ [(pr.1, []), (pr.2, [pr.1])])
          (Nat.succ_injective hlen)
          (fun m hm => hund m (List.mem_cons_of_mem _ hm)) hndr ?_]
      · have hrows : pairRows (pr :: rest) =
            [(pr.1, []), (pr.2, [pr.1])] ++ pairRows rest := rfl
        rw [hrows, ← List.append_assoc]
      · intro k hk
        rw [List.map_append] at hk
        rcases List.mem_append.mp hk with hk | hk
        · intro hmem
          exact hdisj k hk (List.mem_cons_of_mem _ (List.mem_cons_of_mem _ hmem))
        · simp only [List.map_cons, List.map_nil, List.mem_cons,
            List.not_mem_nil, or_false] at hk
          rcases hk with hk | hk
          · subst hk
            intro hmem
            exact h1 (List.mem_cons_of_mem _ hmem)
          · subst hk
            exact h2

/-- C4: a successful discovery pass over units each declaring exactly one
producer→transform pair, with all task identities pairwise distinct,
returns the registry with exactly two rows per unit — the producer mapped
to the empty dependency list and the transform mapped to the one-element
list holding its producer — hence 2N entries for N units. -/
theorem load_nodes_pair_units (dir : String) (names : List String)
    (pairs : List (String × String))
    (hlen : names.length = pairs.length)
    (hund : ∀ n ∈ names, pyStartsWith n "_" = false)
    (hnd : (pairsFlat pairs).Nodup) :
    (load_nodes dir true (List.zipWith mkPairUnit names pairs)).2 =
      .ok (pairRows pairs) ∧
    (pairRows pairs).length = 2 * pairs.length := by
  constructor
  · simp only [load_nodes, if_true]
    rw [processFiles_pair_units pairs names [loadingMsg dir] [] hlen hund hnd
      (by simp)]
    rfl
  · exact pairRows_length pairs

/-- Witness for C4: two units, four pairwise distinct task identities. -/
theorem load_nodes_pair_units_witness :
    (load_nodes "src/nodes" true
        (List.zipWith mkPairUnit ["a.py", "b.py"]
          [("fetchA", "saveA"), ("fetchB", "saveB")])).2 =
      .ok (pairRows [("fetchA", "saveA"), ("fetchB", "saveB")]) ∧
    (pairRows [("fetchA", "saveA"), ("fetchB", "saveB")]).length = 2 * 2 :=
  load_nodes_pair_units "src/nodes" ["a.py", "b.py"]
    [("fetchA", "saveA"), ("fetchB", "saveB")] rfl (by decide) (by decide)

/-- C6: two units, in enumeration order, each declaring a pair for the
same producer identity: `load_nodes` returns without error a registry in
which that identity carries exactly the row contributed by the
later-processed unit (`producer → []`), the earlier row being silently
overwritten in place. -/
theorem load_nodes_duplicate_producer (dir n1 n2 p t1 t2 : String)
    (hn1 : pyStartsWith n1 "_" = false) (hn2 : pyStartsWith n2 "_" = false)
    (hp1 : p ≠ t1) (hp2 : p ≠ t2) :
    ∃ reg : Registry,
      (load_nodes dir true [mkPairUnit n1 (p, t1), mkPairUnit n2 (p, t2)]).2 =
        .ok reg ∧ pyDictGet reg p = some [] := by
  have e1 : pyDictSet ([] : Registry) p [] = [(p, [])] := rfl
  have e2 : pyDictSet [(p, ([] : List String))] t1 [p] = [(p, []), (t1, [p])] := by
    apply pyDictSet_fresh
    intro q hq heq
    simp only [List.mem_singleton] at hq
    subst hq
    exact hp1 heq
  have e3 : pyDictSet [(p, ([] : List String)), (t1, [p])] p [] =
      [(p, []), (t1, [p])] := by
    have hpp : decide (p = p) = true := by simp
    simp [pyDictSet, Ne.symm hp1]
  set regF := pyDictSet [(p, ([] : List String)), (t1, [p])] t2 [p] with hregF
  have hrun : processFiles [loadingMsg dir] []
      [mkPairUnit n1 (p, t1), mkPairUnit n2 (p, t2)] =
      ([loadingMsg dir], .ok regF) := by
    rw [processFiles_pair_cons _ _ n1 (p, t1) _ hn1]
    simp only [e1, e2]
    rw [processFiles_pair_cons _ _ n2 (p, t2) _ hn2]
    simp only [e3]
    rfl
  refine ⟨regF, ?_, ?_⟩
  · simp only [load_nodes, if_true, hrun]
  · by_cases h12 : t1 = t2
    · subst h12
      have : regF = [(p, []), (t1, [p])] := by
        rw [hregF]
        simp [pyDictSet, Ne.symm hp2, hp2]
      rw [this]
      simp [pyDictGet, List.find?]
    · have : regF = [(p, []), (t1, [p]), (t2, [p])] := by
        rw [hregF]
        have h := pyDictSet_fresh [(p, ([] : List String)), (t1, [p])] t2 [p] ?_
        · rw [h]
          rfl
        · intro q hq heq
          simp only [List.mem_cons, List.mem_singleton, List.not_mem_nil,
            or_false] at hq
          rcases hq with hq | hq <;> subst hq
          · exact hp2 heq
          · exact h12 heq
      rw [this]
      simp [pyDictGet, List.find?]

/-- Witness for C6: the shared producer `fetch`, transforms `saveA` and
`saveB`. -/
theorem load_nodes_duplicate_producer_witness :
    ∃ reg : Registry,
      (load_nodes "src/nodes" true
          [mkPairUnit "a.py" ("fetch", "saveA"),
           mkPairUnit "b.py" ("fetch", "saveB")]).2 = .ok reg ∧
      pyDictGet reg "fetch" = some [] :=
  load_nodes_duplicate_producer "src/nodes" "a.py" "b.py" "fetch" "saveA"
    "saveB" rfl rfl (by decide) (by decide)

/-! ## Topological-order lemmas -/

theorem entry_eq_of_keys_nodup (reg : Registry)
    (hnd : (reg.map Prod.fst).Nodup) :
    ∀ p ∈ reg, ∀ q ∈ reg, p.1 = q.1 → p = q := by
  induction reg with
  | nil =>
    intro p hp
    cases hp
  | cons r rest ih =>
    simp only [List.map_cons, List.nodup_cons] at hnd
    intro p hp q hq heq
    rcases List.mem_cons.mp hp with hp1 | hp1
    · rcases List.mem_cons.mp hq with hq1 | hq1
      · rw [hp1, hq1]
      · have hm := List.mem_map_of_mem Prod.fst hq1
        rw [← heq, hp1] at hm
        exact absurd hm hnd.1
    · rcases List.mem_cons.mp hq with hq1 | hq1
      · have hm := List.mem_map_of_mem Prod.fst hp1
        rw [heq, hq1] at hm
        exact absurd hm hnd.1
      · exact ih hnd.2 p hp1 q hq1 heq

theorem topoStep_sound (fuel : Nat) :
    ∀ (reg : Registry) (acc order : List String),
      (reg.map Prod.fst).Nodup →
      topoStep fuel reg acc = .ok order →
      (∃ rest, order = acc ++ rest) ∧
      ∀ p ∈ reg, ∃ pre post, order = pre ++ p.1 :: post ∧ ∀ d ∈ p.2, d ∈ pre := by
  induction fuel with
  | zero =>
    intro reg acc order hnd h
    simp only [topoStep] at h
    by_cases he : reg.isEmpty = true
    · rw [if_pos he] at h
      have hacc : acc = order := by
        injection h
      have hreg : reg = [] := List.isEmpty_iff.mp he
      subst hreg
      exact ⟨⟨[], by rw [← hacc, List.append_nil]⟩, by intro p hp; cases hp⟩
    · rw [if_neg he] at h
      cases h
  | succ fuel ih =>
    intro reg acc order hnd h
    simp only [topoStep] at h
    by_cases he : reg.isEmpty = true
    · rw [if_pos he] at h
      have hacc : acc = order := by
        injection h
      have hreg : reg = [] := List.isEmpty_iff.mp he
      subst hreg
      exact ⟨⟨[], by rw [← hacc, List.append_nil]⟩, by intro p hp; cases hp⟩
    · rw [if_neg he] at h
      cases hf : reg.find? (readyTask acc) with
      | none =>
        rw [hf] at h
        cases h
      | some p =>
        rw [hf] at h
        have hpmem : p ∈ reg := List.mem_of_find?_eq_some hf
        have hpready : readyTask acc p = true := List.find?_some hf
        have hdeps : ∀ d ∈ p.2, d ∈ acc := by
          intro d hd
          have hc := List.all_eq_true.mp hpready d hd
          simpa using hc
        have hnd' : ((reg.filter (fun q => !(q.1 == p.1))).map Prod.fst).Nodup :=
          List.Nodup.sublist (List.Sublist.map Prod.fst (List.filter_sublist reg)) hnd
        obtain ⟨⟨rest, horder⟩, hall⟩ := ih _ _ _ hnd' h
        constructor
        · refine ⟨p.1 :: rest, ?_⟩
          rw [horder, List.append_assoc]
          rfl
        · intro q hq
          by_cases hqp : q.1 = p.1
          · have hqeq : q = p := entry_eq_of_keys_nodup reg hnd q hq p hpmem hqp
            subst hqeq
            refine ⟨acc, rest, ?_, hdeps⟩
            rw [horder, List.append_assoc]
            rfl
          · have hq' : q ∈ reg.filter (fun q => !(q.1 == p.1)) := by
              rw [List.mem_filter]
              exact ⟨hq, by simp [hqp]⟩
            exact hall q hq'

/-- C2: for every acyclic registry accepted by the ordering algorithm of
the Dependency Graph & Executor (modelled from the spec, the DAG source
not being at hand), the computed execution order contains every
registered task and places every task after all of its dependencies. -/
theorem topo_sort_topological (reg : Registry) (order : List String)
    (hnd : (reg.map Prod.fst).Nodup)
    (h : topo_sort reg = .ok order) :
    (∀ p ∈ reg, p.1 ∈ order) ∧
    (∀ p ∈ reg, ∃ pre post, order = pre ++ p.1 :: post ∧ ∀ d ∈ p.2, d ∈ pre) := by
  obtain ⟨_, hall⟩ := topoStep_sound reg.length reg [] order hnd h
  refine ⟨?_, hall⟩
  intro p hp
  obtain ⟨pre, post, hdec, _⟩ := hall p hp
  rw [hdec]
  exact List.mem_append.mpr (Or.inr (List.mem_cons_self _ _))

/-- Witness for C2: the spec §8 end-to-end registry
`fetchA → [], saveA → [fetchA], fetchB → []`. -/
theorem topo_sort_topological_witness :
    (∀ p ∈ ([("fetchA", []), ("saveA", ["fetchA"]), ("fetchB", [])] : Registry),
      p.1 ∈ ["fetchA", "saveA", "fetchB"]) ∧
    (∀ p ∈ ([("fetchA", []), ("saveA", ["fetchA"]), ("fetchB", [])] : Registry),
      ∃ pre post, ["fetchA", "saveA", "fetchB"] = pre ++ p.1 :: post ∧
        ∀ d ∈ p.2, d ∈ pre) :=
  topo_sort_topological [("fetchA", []), ("saveA", ["fetchA"]), ("fetchB", [])]
    ["fetchA", "saveA", "fetchB"] (by decide) rfl
